import Mathlib

/-!
Shallow embedding of the core of `colmena` (src/util.rs): the node selector
(`filter_nodes`), the command-execution engine (`CommandExecution`,
`capture_stream`) and the configuration locator (`hive_from_args`,
`canonicalize_cli_path`), together with theorems settling the specification
claims about them.
-/

namespace Colmena

/-! ## Glob patterns

Modelled from the spec: the external `glob` crate's `Pattern` (shell-style
glob supporting `*`, `?` and `[...]` character classes, with the crate's
default match options: case-sensitive, `*` unrestricted). `Pattern::new`
is fallible (e.g. an unclosed character class); `none` models the
compilation error. -/

inductive GlobToken where
  | star
  | anyChar
  | lit (c : Char)
  | charClass (negated : Bool) (ranges : List (Char × Char))
deriving DecidableEq, Repr

/-- Parse the body of a `[...]` character class: a list of ranges (a single
character `c` is the range `c-c`), ending at `]`. `none` models the
crate's unclosed-character-class compilation error. -/
def parseClass : List Char → Option (List (Char × Char) × List Char)
  | [] => none
  | ']' :: rest => some ([], rest)
  | a :: '-' :: b :: rest =>
    if b = ']' then some ([(a, a), ('-', '-')], rest)
    else (parseClass rest).map fun p => ((a, b) :: p.1, p.2)
  | a :: rest => (parseClass rest).map fun p => ((a, a) :: p.1, p.2)

/-- Fuelled glob parser; fuel at least the length of the input makes it total
on that input. -/
def parseGlobAux : Nat → List Char → Option (List GlobToken)
  | _, [] => some []
  | 0, _ :: _ => none
  | fuel + 1, '*' :: rest => (parseGlobAux fuel rest).map (GlobToken.star :: ·)
  | fuel + 1, '?' :: rest => (parseGlobAux fuel rest).map (GlobToken.anyChar :: ·)
  | fuel + 1, '[' :: '!' :: rest =>
    match parseClass rest with
    | some (rs, rem) => (parseGlobAux fuel rem).map (GlobToken.charClass true rs :: ·)
    | none => none
  | fuel + 1, '[' :: rest =>
    match parseClass rest with
    | some (rs, rem) => (parseGlobAux fuel rem).map (GlobToken.charClass false rs :: ·)
    | none => none
  | fuel + 1, c :: rest => (parseGlobAux fuel rest).map (GlobToken.lit c :: ·)

/-- `glob::Pattern::new`: compile a glob pattern, `none` on a malformed
pattern. -/
def GlobPattern.new (l : List Char) : Option (List GlobToken) :=
  parseGlobAux l.length l

def inClass (ranges : List (Char × Char)) (c : Char) : Bool :=
  ranges.any fun r => decide (r.1 ≤ c ∧ c ≤ r.2)

/-- Fuelled glob matcher; every recursive call shrinks the combined size of
pattern and input, so fuel at least `ps.length + s.length` makes it total. -/
def globMatchAux : Nat → List GlobToken → List Char → Bool
  | _, [], [] => true
  | _, [], _ :: _ => false
  | fuel + 1, .star :: ps, [] => globMatchAux fuel ps []
  | fuel + 1, .star :: ps, c :: cs =>
    globMatchAux fuel ps (c :: cs) || globMatchAux fuel (GlobToken.star :: ps) cs
  | fuel + 1, .anyChar :: ps, _ :: cs => globMatchAux fuel ps cs
  | _, .anyChar :: _, [] => false
  | fuel + 1, .lit d :: ps, c :: cs => d = c && globMatchAux fuel ps cs
  | _, .lit _ :: _, [] => false
  | fuel + 1, .charClass neg rs :: ps, c :: cs =>
    (inClass rs c != neg) && globMatchAux fuel ps cs
  | _, .charClass _ _ :: _, [] => false
  | 0, _ :: _, _ => false

/-- `glob::Pattern::matches` under the default match options. -/
def globMatch (ps : List GlobToken) (s : List Char) : Bool :=
  globMatchAux (ps.length + s.length) ps s

def globMatchStr (p : List GlobToken) (s : String) : Bool :=
  globMatch p s.data

/-! ## The node selector (`filter_nodes`, src/util.rs lines 148-184) -/

/-- Per-node attributes relevant to selection: the tag set (the `tags()`
accessor of `NodeConfig` in the nix module, which is outside src/). -/
structure NodeConfig where
  tags : List String
deriving DecidableEq, Repr

inductive NodeFilter where
  | NameFilter (pat : List GlobToken)
  | TagFilter (pat : List GlobToken)
deriving DecidableEq, Repr

/-- `str::split` on a one-character separator: the list of components
between occurrences of `sep`; splitting the empty string yields one empty
component, as in Rust. -/
def splitComponents (sep : Char) : List Char → List (List Char)
  | [] => [[]]
  | c :: cs =>
    if c = sep then [] :: splitComponents sep cs
    else
      match splitComponents sep cs with
      | [] => [[c]]
      | l :: ls => (c :: l) :: ls

/-- Compilation of a single selector component: a leading `@`
(`strip_prefix`) marks a tag filter on the remainder, otherwise a name
filter on the whole component. `none` models the `.unwrap()` panic on a
malformed glob. -/
def compileFilter : List Char → Option NodeFilter
  | '@' :: tagPattern => (GlobPattern.new tagPattern).map NodeFilter.TagFilter
  | pattern => (GlobPattern.new pattern).map NodeFilter.NameFilter

def compileFilters : List (List Char) → Option (List NodeFilter)
  | [] => some []
  | p :: ps =>
    match compileFilter p, compileFilters ps with
    | some f, some fs => some (f :: fs)
    | _, _ => none

/-- The inner loop of `filter_nodes`: a node is kept when at least one
filter matches — a tag filter when its glob matches some tag of the node,
a name filter when its glob matches the node's name. -/
def nodeMatches (filters : List NodeFilter) (name : String) (node : NodeConfig) : Bool :=
  filters.any fun f =>
    match f with
    | .TagFilter pat => node.tags.any fun tag => globMatchStr pat tag
    | .NameFilter pat => globMatchStr pat name

/-- `filter_nodes`: the node registry is a `HashMap<NodeName, NodeConfig>`,
embedded as an association list with unique keys. The selector string is
split on `,` and every component is compiled eagerly; `none` models the
panic on a malformed glob. With a non-empty filter list the matching nodes
are collected; with an empty one every key is returned. -/
def filter_nodes (nodes : List (String × NodeConfig)) (filter : String) :
    Option (List String) :=
  match compileFilters (splitComponents ',' filter.data) with
  | none => none
  | some filters =>
    if filters.length > 0 then
      some (nodes.filterMap fun p => if nodeMatches filters p.1 p.2 then some p.1 else none)
    else
      some (nodes.map Prod.fst)

/-! ## The stream drain (`capture_stream`, src/util.rs lines 211-230) -/

/-- `str::trim_end`: remove all trailing whitespace. The source relies on
Rust's `char::is_whitespace`; `Char.isWhitespace` models its ASCII
fragment, which is all the claims exercise. -/
def trimEnd (l : List Char) : List Char :=
  (l.reverse.dropWhile Char.isWhitespace).reverse

/-- The read loop of `capture_stream`, with the buffered reader's pending
partial line carried reversed in `acc`: `read_line` returns everything up
to and including the next `\n` (or the remaining bytes at end of stream;
a zero-length read ends the loop); each complete line is trimmed with
`trim_end`, forwarded to the progress sink, and appended to the log
together with a single `\n`. Returns the accumulated log and the lines
forwarded to the sink, in order. -/
def captureGo : List Char → List Char → List Char × List (List Char)
  | [], acc =>
    if acc = [] then ([], [])
    else
      let t := trimEnd acc.reverse
      (t ++ ['\n'], [t])
  | c :: cs, acc =>
    if c = '\n' then
      let t := trimEnd (acc.reverse ++ ['\n'])
      let r := captureGo cs []
      (t ++ '\n' :: r.1, t :: r.2)
    else captureGo cs (c :: acc)

/-- `capture_stream`: drain one output stream, returning the accumulated
log buffer and the sequence of lines forwarded to the `TaskProgress`
sink, in per-stream order. -/
def capture_stream (s : List Char) : List Char × List (List Char) :=
  captureGo s []

/-- The complete lines of a byte stream, terminators included: the chunks
that successive `read_line` calls return. A final unterminated chunk is
kept; a stream ending in `\n` has no chunk after it. Used only to state
theorems about `capture_stream`. -/
def streamChunks : List Char → List (List Char)
  | [] => []
  | c :: cs =>
    if c = '\n' then ['\n'] :: streamChunks cs
    else
      match streamChunks cs with
      | [] => [[c]]
      | l :: ls => (c :: l) :: ls

/-- Stripping as claim C4 words it: remove exactly the trailing line
terminator (`\n`, or `\r\n`) and nothing else. -/
def stripTerminator (l : List Char) : List Char :=
  match l.reverse with
  | '\n' :: '\r' :: rest => rest.reverse
  | '\n' :: rest => rest.reverse
  | _ => l

/-! ## The execution engine (`CommandExecution`, src/util.rs lines 20-79) -/

/-- `std::process::ExitStatus`: a normal exit code, or termination by a
signal; `success()` holds exactly for exit code zero. -/
inductive ExitStatus where
  | code (n : Int)
  | signal (s : Int)
deriving DecidableEq, Repr

def ExitStatus.success : ExitStatus → Bool
  | .code 0 => true
  | _ => false

/-- Modelled from the spec: the error type of the `nix` module (not under
src/) — a distinct I/O-kind failure (spawn or wait error, converted by
`?`), or a failure carrying the process exit status (`exit.into()`). -/
inductive NixError where
  | ioError (msg : String)
  | nixFailure (status : ExitStatus)
deriving DecidableEq, Repr

/-- Whether an error is a process-exit failure (as opposed to the distinct
I/O kind). -/
def NixError.isProcessExit : NixError → Bool
  | .nixFailure _ => true
  | .ioError _ => false

/-- The engine state the claims observe: the two log buffers (`None` before
any run). The `Command` and `TaskProgress` fields are external handles and
carry no state the claims mention. -/
structure CommandExecution where
  stdout : Option String
  stderr : Option String
deriving DecidableEq, Repr

/-- `CommandExecution::new`. -/
def CommandExecution.new : CommandExecution :=
  { stdout := none, stderr := none }

/-- `get_logs`: the logs of the last invocation. -/
def CommandExecution.get_logs (self : CommandExecution) :
    Option String × Option String :=
  (self.stdout, self.stderr)

/-- One `run()` invocation. The external process behaviour is supplied as
data: `spawn` is the result of `Command::spawn` (`.error` an I/O failure
to spawn), carrying on success the full contents of the child's stdout and
stderr pipes and the result of `child.wait()`. Mirrors the source order:
both buffers are reset to present-but-empty, the child is spawned (`?`
propagates a spawn error), both streams are drained to completion and the
exit awaited (`join3`), the buffers stored, and the exit status mapped to
success or a status-carrying failure. -/
def CommandExecution.run (self : CommandExecution)
    (spawn : Except String (List Char × List Char × Except String ExitStatus)) :
    CommandExecution × Except NixError Unit :=
  let self := { self with stdout := some (""), stderr := some ("") }
  match spawn with
  | .error e => (self, .error (.ioError e))
  | .ok (outPipe, errPipe, wait) =>
    let stdout_str := (capture_stream outPipe).1
    let stderr_str := (capture_stream errPipe).1
    let self := { self with
      stdout := some (String.mk stdout_str)
      stderr := some (String.mk stderr_str) }
    match wait with
    | .error e => (self, .error (.ioError e))
    | .ok exit =>
      if exit.success then (self, .ok ()) else (self, .error (.nixFailure exit))

/-! ## The configuration locator (`hive_from_args`, src/util.rs lines
81-146, and `canonicalize_cli_path`, lines 203-209) -/

/-- A directory, deepest component first; `[]` is the filesystem root,
whose `parent()` is `None`. -/
abbrev Dir := List String

/-- The upward search loop of `hive_from_args` (lines 88-109): at each
directory check for `flake.nix`, then for `hive.nix`; ascend to the parent
when neither is a file; stop with `none` once the root has been checked.
`isFile d f` embeds `d.join(f).is_file()`. -/
def locateConfig (isFile : Dir → String → Bool) : Dir → Option (Dir × String)
  | [] =>
    if isFile [] "flake.nix" then some ([], "flake.nix")
    else if isFile [] "hive.nix" then some ([], "hive.nix")
    else none
  | c :: parent =>
    if isFile (c :: parent) "flake.nix" then some (c :: parent, "flake.nix")
    else if isFile (c :: parent) "hive.nix" then some (c :: parent, "hive.nix")
    else locateConfig isFile parent

/-- Outcome of the implicit-config branch of `hive_from_args`. -/
inductive LocateResult where
  | found (dir : Dir) (file : String)
  | panicked
deriving DecidableEq, Repr

def LocateResult.isFound : LocateResult → Bool
  | .found _ _ => true
  | .panicked => false

/-- The implicit-config branch of `hive_from_args` (lines 83-116): run the
upward search from the working directory; when it finds nothing the source
logs the diagnostic and then calls `file_path.unwrap()` on `None`, which
panics — `LocateResult.panicked` models that crash. -/
def hive_from_args_implicit (isFile : Dir → String → Bool) (cwd : Dir) :
    LocateResult :=
  match locateConfig isFile cwd with
  | some p => LocateResult.found p.1 p.2
  | none => LocateResult.panicked

/-- `canonicalize_cli_path`: prefix `./` to a path that does not start with
`/` (the `starts_with("/")` test is on the first character). -/
def canonicalize_cli_path (path : String) : String :=
  if path.data.head? ≠ some '/' then ("./" ++ path) else path

/-- How the explicit-config branch resolves its argument: through
`Flake::from_uri` (external flake resolver), or as a `HivePath` from the
normalized file path. -/
inductive ConfigResolution where
  | flakeUri (uri : String)
  | hivePath (path : String)
deriving DecidableEq, Repr

def ConfigResolution.isFlakeUri : ConfigResolution → Bool
  | .flakeUri _ => true
  | .hivePath _ => false

/-- The explicit-config branch of `hive_from_args` (lines 117-135), with
filesystem existence supplied as a predicate: the argument is treated as a
flake URI exactly when the normalized path does not exist and the raw
argument contains `:` (`path.contains(":")` over the characters). -/
def hive_from_args_explicit (pathExists : String → Bool) (path : String) :
    ConfigResolution :=
  let fpath := canonicalize_cli_path path
  if !pathExists fpath && path.data.contains ':' then
    ConfigResolution.flakeUri path
  else
    ConfigResolution.hivePath fpath

/-! ## Helper lemmas -/

theorem splitComponents_ne_nil (sep : Char) (l : List Char) :
    splitComponents sep l ≠ [] := by
  cases l with
  | nil => simp [splitComponents]
  | cons c cs =>
    by_cases h : c = sep
    · simp [splitComponents, h]
    · simp only [splitComponents, if_neg h]
      cases hs : splitComponents sep cs <;> simp

theorem compileFilters_length {ps : List (List Char)} {fs : List NodeFilter}
    (h : compileFilters ps = some fs) : fs.length = ps.length := by
  induction ps generalizing fs with
  | nil =>
    simp only [compileFilters, Option.some.injEq] at h
    simp [← h]
  | cons p ps ih =>
    rw [compileFilters] at h
    split at h
    · rename_i f fs' hf hfs
      injection h with h'
      subst h'
      simp [ih hfs]
    · cases h

theorem globMatch_nil (s : List Char) : globMatch [] s = s.isEmpty := by
  cases s <;> rfl

theorem globMatchAux_star (s : List Char) : ∀ fuel : Nat, s.length < fuel →
    globMatchAux fuel [GlobToken.star] s = true := by
  induction s with
  | nil =>
    intro fuel h
    cases fuel with
    | zero => omega
    | succ n => simp [globMatchAux]
  | cons c cs ih =>
    intro fuel h
    cases fuel with
    | zero => omega
    | succ n =>
      simp only [globMatchAux]
      rw [ih n (by simp at h; omega)]
      simp

theorem globMatch_star (s : List Char) : globMatch [GlobToken.star] s = true :=
  globMatchAux_star s (1 + s.length) (by omega)

theorem filterMap_congr_mem {α β : Type} {f g : α → Option β} {l : List α}
    (h : ∀ a ∈ l, f a = g a) : l.filterMap f = l.filterMap g := by
  induction l with
  | nil => rfl
  | cons a as ih =>
    rw [List.filterMap_cons, List.filterMap_cons, h a (List.mem_cons_self a as),
      ih fun x hx => h x (List.mem_cons_of_mem a hx)]

theorem filterMap_if_sublist {α β : Type} (q : α → Bool) (key : α → β) (l : List α) :
    (l.filterMap fun p => if q p then some (key p) else none).Sublist (l.map key) := by
  induction l with
  | nil => simp
  | cons p ps ih =>
    simp only [List.filterMap_cons, List.map_cons]
    by_cases h : q p
    · rw [if_pos h]
      exact ih.cons₂ (key p)
    · rw [if_neg h]
      exact ih.cons (key p)

theorem filter_nodes_empty_string (nodes : List (String × NodeConfig)) :
    filter_nodes nodes ("") =
      some (nodes.filterMap fun p => if p.1 = "" then some p.1 else none) := by
  have hc : compileFilters (splitComponents ',' ("".data)) =
      some [NodeFilter.NameFilter []] := rfl
  simp only [filter_nodes, hc, List.length_cons, List.length_nil, Nat.lt_irrefl,
    if_pos (by omega : 0 < 0 + 1), Option.some.injEq]
  refine filterMap_congr_mem fun p _ => ?_
  have hm : nodeMatches [NodeFilter.NameFilter []] p.1 p.2 = p.1.data.isEmpty := by
    simp [nodeMatches, globMatchStr, globMatch_nil]
  rw [hm]
  by_cases h : p.1 = ""
  · simp [h]
  · have hd : p.1.data ≠ [] := by
      intro hdd
      exact h (String.ext (by rw [hdd]))
    rw [if_neg h, if_neg (by simp [List.isEmpty_iff, hd])]

/-! ## Claim theorems for the node selector -/

/-- C1, counterexample: `filter_nodes` applied to the empty selector string
does not return every node name — on a one-node registry it returns the
empty list, because splitting `""` on `,` yields one empty component,
which compiles to an empty glob matching no non-empty name. -/
theorem C1_counterexample :
    filter_nodes [("alpha", ⟨[]⟩)] "" ≠ some ["alpha"] ∧
    filter_nodes [("alpha", ⟨[]⟩)] "" = some [] := by decide

/-- C1, amended: an absent selector never reaches `filter_nodes` (the
select-all branch requires an empty filter list, which splitting a string
never produces); the empty selector string compiles to a single empty-glob
name filter, so `filter_nodes` with `""` returns exactly the nodes whose
name is the empty string — not all node names. Selector `"*"` does return
every node name. -/
theorem C1_empty_selector (nodes : List (String × NodeConfig)) :
    filter_nodes nodes ("") =
      some (nodes.filterMap fun p => if p.1 = "" then some p.1 else none) ∧
    filter_nodes nodes ("*") = some (nodes.map Prod.fst) := by
  constructor
  · exact filter_nodes_empty_string nodes
  · have hc : compileFilters (splitComponents ',' ("*".data)) =
        some [NodeFilter.NameFilter [GlobToken.star]] := rfl
    simp only [filter_nodes, hc, List.length_cons, List.length_nil,
      if_pos (by omega : 0 < 0 + 1), Option.some.injEq]
    have hall : ∀ p : String × NodeConfig,
        (if nodeMatches [NodeFilter.NameFilter [GlobToken.star]] p.1 p.2 then
          some p.1 else none) = some p.1 := by
      intro p
      rw [if_pos]
      simp [nodeMatches, globMatchStr, globMatch_star]
    rw [filterMap_congr_mem fun p _ => hall p]
    have : (fun p : String × NodeConfig => some p.1) = some ∘ Prod.fst := rfl
    rw [this, List.filterMap_eq_map]

/-- C2: when every selector component compiles as a glob, a node is
selected if and only if at least one filter matches it — logical OR across
filters, a name filter matching by glob on the node's name and a tag
filter by glob on at least one of the node's tags — and, the registry's
keys being unique, each selected name appears exactly once in the result. -/
theorem C2_or_semantics (nodes : List (String × NodeConfig)) (filter : String)
    (filters : List NodeFilter)
    (hcomp : compileFilters (splitComponents ',' filter.data) = some filters)
    (hnodup : (nodes.map Prod.fst).Nodup) :
    ∃ result, filter_nodes nodes filter = some result ∧ result.Nodup ∧
      ∀ name, name ∈ result ↔
        ∃ cfg, (name, cfg) ∈ nodes ∧ nodeMatches filters name cfg = true := by
  have hpos : 0 < filters.length := by
    rw [compileFilters_length hcomp]
    cases hs : splitComponents ',' filter.data with
    | nil => exact absurd hs (splitComponents_ne_nil ',' filter.data)
    | cons a as => simp
  have heq : filter_nodes nodes filter =
      some (nodes.filterMap fun p =>
        if nodeMatches filters p.1 p.2 then some p.1 else none) := by
    simp only [filter_nodes, hcomp]
    rw [if_pos hpos]
  refine ⟨_, heq, ?_, ?_⟩
  · exact (filterMap_if_sublist (fun p => nodeMatches filters p.1 p.2)
      Prod.fst nodes).nodup hnodup
  · intro name
    constructor
    · intro hm
      rw [List.mem_filterMap] at hm
      obtain ⟨⟨n, cfg⟩, hmem, hg⟩ := hm
      by_cases hq : nodeMatches filters n cfg = true
      · rw [if_pos hq] at hg
        injection hg with h'
        subst h'
        exact ⟨cfg, hmem, hq⟩
      · rw [if_neg hq] at hg
        cases hg
    · rintro ⟨cfg, hmem, hq⟩
      rw [List.mem_filterMap]
      exact ⟨(name, cfg), hmem, by rw [if_pos hq]⟩

/-- C2, witness: the theorem applied to a two-node registry and the
selector `@prod`, whose single component compiles to a tag filter. -/
theorem C2_witness :
    ∃ result,
      filter_nodes
        [("host1", (⟨["prod"]⟩ : NodeConfig)), ("host2", (⟨["edge"]⟩ : NodeConfig))]
        "@prod" = some result ∧
      result.Nodup ∧
      ∀ name, name ∈ result ↔
        ∃ cfg,
          (name, cfg) ∈
            [("host1", (⟨["prod"]⟩ : NodeConfig)), ("host2", (⟨["edge"]⟩ : NodeConfig))] ∧
          nodeMatches
            [NodeFilter.TagFilter
              [GlobToken.lit 'p', GlobToken.lit 'r', GlobToken.lit 'o', GlobToken.lit 'd']]
            name cfg = true :=
  C2_or_semantics _ ("@prod") _ (by decide) (by decide)

/-- C8, counterexample: empty selector components are not rejected — the
empty selector string and the bare `@` selector both compile successfully
(no failure before matching); the bare `@` builds an empty tag glob that
simply matches no node of the registry. -/
theorem C8_counterexample :
    (filter_nodes [("alpha", ⟨["prod"]⟩)] "").isSome = true ∧
    (filter_nodes [("alpha", ⟨["prod"]⟩)] "@").isSome = true ∧
    filter_nodes [("alpha", ⟨["prod"]⟩)] "@" = some [] := by decide

/-- C8, amended: splitting on `,` never rejects an empty component;
an empty component (and the empty tag remainder of a bare `@`) compiles to
the empty glob, so selector compilation succeeds, and a bare `@` selects
exactly the nodes carrying an empty tag. Only a malformed glob (e.g. an
unclosed character class) makes compilation fail, fast and all-or-nothing,
before any matching. -/
theorem C8_empty_components (nodes : List (String × NodeConfig)) :
    (filter_nodes nodes ("")).isSome = true ∧
    filter_nodes nodes ("@") =
      some (nodes.filterMap fun p => if ("") ∈ p.2.tags then some p.1 else none) ∧
    filter_nodes nodes ("[") = none := by
  refine ⟨by rw [filter_nodes_empty_string]; rfl, ?_, rfl⟩
  have hc : compileFilters (splitComponents ',' ("@".data)) =
      some [NodeFilter.TagFilter []] := rfl
  simp only [filter_nodes, hc, List.length_cons, List.length_nil,
    if_pos (by omega : 0 < 0 + 1), Option.some.injEq]
  refine filterMap_congr_mem fun p _ => ?_
  have hm : nodeMatches [NodeFilter.TagFilter []] p.1 p.2 =
      p.2.tags.any fun t => t.data.isEmpty := by
    simp [nodeMatches, globMatchStr, globMatch_nil]
  rw [hm]
  have hiff : (p.2.tags.any fun t => t.data.isEmpty) = true ↔ "" ∈ p.2.tags := by
    rw [List.any_eq_true]
    constructor
    · rintro ⟨t, ht, hte⟩
      have hdata : t.data = [] := List.isEmpty_iff.mp hte
      have : t = "" := String.ext (hdata.trans rfl)
      rwa [this] at ht
    · intro h
      exact ⟨"", h, by rfl⟩
  by_cases h : "" ∈ p.2.tags
  · rw [if_pos (hiff.mpr h), if_pos h]
  · rw [if_neg (fun hx => h (hiff.mp hx)), if_neg h]

/-! ## Claim theorems for the configuration locator -/

theorem locateConfig_eq_find (isFile : Dir → String → Bool) (cwd : Dir) :
    locateConfig isFile cwd =
      (cwd.tails.find? fun d => isFile d ("flake.nix") || isFile d ("hive.nix")).map
        fun d => if isFile d ("flake.nix") then (d, "flake.nix") else (d, "hive.nix") := by
  induction cwd with
  | nil =>
    cases hf : isFile [] "flake.nix" <;> cases hh : isFile [] "hive.nix" <;>
      simp [locateConfig, hf, hh]
  | cons c parent ih =>
    cases hf : isFile (c :: parent) "flake.nix" <;>
      cases hh : isFile (c :: parent) "hive.nix" <;>
        simp [locateConfig, List.tails_cons, hf, hh, ih]

/-- C6: the implicit search starts at the working directory and uses the
first (nearest) ancestor-or-self directory containing `flake.nix` or
`hive.nix` — `cwd.tails` lists the directory chain up to the root in
ascending order — preferring `flake.nix` over `hive.nix` at that same
level; it ascends only past levels containing neither. -/
theorem C6_locator_order (isFile : Dir → String → Bool) (cwd : Dir) :
    locateConfig isFile cwd =
      (cwd.tails.find? fun d => isFile d ("flake.nix") || isFile d ("hive.nix")).map
        fun d => if isFile d ("flake.nix") then (d, "flake.nix") else (d, "hive.nix") :=
  locateConfig_eq_find isFile cwd

/-- C3, counterexample: started in a directory with no `flake.nix` or
`hive.nix` anywhere up to the root, the locator does not produce a
recoverable "not found" error — it panics (`file_path.unwrap()` on
`None`), modelled by `LocateResult.panicked`. -/
theorem C3_counterexample :
    hive_from_args_implicit (fun _ _ => false) ["workdir"] = LocateResult.panicked ∧
    (hive_from_args_implicit (fun _ _ => false) ["workdir"]).isFound = false := by
  decide

/-- C3, amended: when neither `flake.nix` nor `hive.nix` exists in the
working directory or any ancestor, the upward search reaches the
filesystem root, the diagnostic is logged, and the locator then crashes
by unwrapping `None` — it does not return a recoverable error result. -/
theorem C3_not_found_panics (isFile : Dir → String → Bool) (cwd : Dir)
    (h : ∀ d ∈ cwd.tails, isFile d ("flake.nix") = false ∧ isFile d ("hive.nix") = false) :
    hive_from_args_implicit isFile cwd = LocateResult.panicked := by
  unfold hive_from_args_implicit
  rw [locateConfig_eq_find, List.find?_eq_none.mpr ?_]
  · rfl
  · intro d hd
    simp [(h d hd).1, (h d hd).2]

/-- C3, witness for the amended theorem: a concrete two-level directory in
an empty filesystem. -/
theorem C3_witness :
    hive_from_args_implicit (fun _ _ => false) ["user", "home"] =
      LocateResult.panicked :=
  C3_not_found_panics (fun _ _ => false) ["user", "home"] (by decide)

/-! ## Claim theorems for the stream drain -/

theorem streamChunks_no_newline {l : List Char} (h : '\n' ∉ l) (hne : l ≠ []) :
    streamChunks l = [l] := by
  induction l with
  | nil => cases hne rfl
  | cons c cs ih =>
    have hc : c ≠ '\n' := by
      intro e
      exact h (by simp [e])
    by_cases hcs : cs = []
    · subst hcs
      simp [streamChunks, hc]
    · have ih' := ih (fun hm => h (List.mem_cons_of_mem c hm)) hcs
      simp [streamChunks, hc, ih']

theorem streamChunks_append_newline (l s : List Char) (h : '\n' ∉ l) :
    streamChunks (l ++ '\n' :: s) = (l ++ ['\n']) :: streamChunks s := by
  induction l with
  | nil => simp [streamChunks]
  | cons c cs ih =>
    have hc : c ≠ '\n' := by
      intro e
      exact h (by simp [e])
    have ih' := ih fun hm => h (List.mem_cons_of_mem c hm)
    simp only [List.cons_append, streamChunks, if_neg hc]
    rw [show cs.append ('\n' :: s) = cs ++ '\n' :: s from rfl, ih']

theorem captureGo_eq (s : List Char) : ∀ acc : List Char, '\n' ∉ acc →
    captureGo s acc =
      (((streamChunks (acc.reverse ++ s)).map fun l => trimEnd l ++ ['\n']).flatten,
       (streamChunks (acc.reverse ++ s)).map trimEnd) := by
  induction s with
  | nil =>
    intro acc hacc
    by_cases ha : acc = []
    · subst ha
      simp [captureGo, streamChunks]
    · have hrev : acc.reverse ≠ [] := by simpa using ha
      have hnin : '\n' ∉ acc.reverse := by simpa using hacc
      rw [captureGo, if_neg ha, List.append_nil, streamChunks_no_newline hnin hrev]
      simp
  | cons c cs ih =>
    intro acc hacc
    by_cases hc : c = '\n'
    · subst hc
      rw [captureGo, if_pos rfl, ih [] (by simp)]
      have hnin : '\n' ∉ acc.reverse := by simpa using hacc
      rw [streamChunks_append_newline _ _ hnin]
      simp
    · have hstep : captureGo (c :: cs) acc = captureGo cs (c :: acc) := by
        rw [captureGo, if_neg hc]
      have hmem : '\n' ∉ c :: acc := by
        intro hm
        rcases List.mem_cons.mp hm with h1 | h2
        · exact hc h1.symm
        · exact hacc h2
      rw [hstep, ih (c :: acc) hmem]
      simp [List.reverse_cons, List.append_assoc]

/-- C4, counterexample: `capture_stream` does not strip exactly the
trailing line terminator — it trims all trailing whitespace. On the stream
`"a \n"` the single complete line is `"a \n"`; stripping exactly the
terminator leaves `"a "`, but the sink receives `"a"`. -/
theorem C4_counterexample :
    (capture_stream ("a \n".data)).2 = ["a".data] ∧
    stripTerminator ("a \n".data) = "a ".data ∧
    ("a".data : List Char) ≠ "a ".data := by decide

/-- C4, amended: for every complete line read from a stream (the chunks
`read_line` returns, terminator included, a final unterminated chunk
counting as a line), `capture_stream` strips all trailing whitespace
(`trim_end`, not just the terminator), forwards each stripped line to the
sink exactly once in per-stream order, and appends the stripped line plus
a single `\n` to the accumulating buffer, stopping at a zero-length
read. -/
theorem C4_trim_forward_append (s : List Char) :
    (capture_stream s).2 = (streamChunks s).map trimEnd ∧
    (capture_stream s).1 = ((streamChunks s).map fun l => trimEnd l ++ ['\n']).flatten := by
  have h := captureGo_eq s [] (by simp)
  unfold capture_stream
  rw [h]
  simp

/-! ## Claim theorems for the execution engine -/

/-- C5: a child exiting with status zero resolves `run()` to success; any
other exit status resolves to a failure carrying exactly that exit status;
and a failure to spawn surfaces as the distinct I/O-kind failure, which is
never a process-exit failure. -/
theorem C5_result_mapping (st : CommandExecution) (outPipe errPipe : List Char)
    (exit : ExitStatus) (e : String) (hfail : exit.success = false) :
    (st.run (.ok (outPipe, errPipe, .ok (.code 0)))).2 = .ok () ∧
    (st.run (.ok (outPipe, errPipe, .ok exit))).2 = .error (.nixFailure exit) ∧
    (st.run (.error e)).2 = .error (.ioError e) ∧
    (NixError.ioError e).isProcessExit = false := by
  refine ⟨?_, ?_, rfl, rfl⟩
  · simp [CommandExecution.run, ExitStatus.success]
  · simp [CommandExecution.run, hfail]

/-- C5, witness: the theorem at a fresh engine, empty pipes, exit code 1
and a concrete spawn error. -/
theorem C5_witness :
    (CommandExecution.new.run (.ok ([], [], .ok (.code 0)))).2 = .ok () ∧
    (CommandExecution.new.run (.ok ([], [], .ok (.code 1)))).2 =
      .error (.nixFailure (.code 1)) ∧
    (CommandExecution.new.run (.error ("No such file or directory"))).2 =
      .error (.ioError ("No such file or directory")) ∧
    (NixError.ioError ("No such file or directory")).isProcessExit = false :=
  C5_result_mapping CommandExecution.new [] [] (.code 1)
    "No such file or directory" (by decide)

/-- C10: on a spawn failure, both log buffers have already been reset to
present-but-empty before the error is returned — for every prior engine
state (so logs of a previous run are erased), `get_logs` afterwards
returns `Some("")` for both streams and the result is the I/O error. -/
theorem C10_spawn_failure_resets_logs (st : CommandExecution) (e : String) :
    (st.run (.error e)).1.get_logs = (some (""), some ("")) ∧
    (st.run (.error e)).2 = .error (.ioError e) :=
  ⟨rfl, rfl⟩

/-! ## Claim theorems for explicit configuration arguments -/

/-- C7: an explicitly supplied relative path (not starting with `/`) is
normalized by prefixing `./` while an absolute one passes through, and the
argument is resolved as a flake URI exactly when the normalized path does
not exist on disk and the raw argument contains `:`; concretely,
`foo.nix` normalizes to `./foo.nix`, and `user@host:repo` with no such
file on disk goes to the flake resolver rather than a file path. -/
theorem C7_path_normalization (pathExists : String → Bool) (path : String) :
    canonicalize_cli_path path =
      (if path.data.head? = some '/' then path else ("./" ++ path)) ∧
    (hive_from_args_explicit pathExists path).isFlakeUri =
      (!pathExists (canonicalize_cli_path path) && path.data.contains ':') ∧
    canonicalize_cli_path ("foo.nix") = "./foo.nix" ∧
    hive_from_args_explicit (fun _ => false) "user@host:repo" =
      ConfigResolution.flakeUri ("user@host:repo") := by
  refine ⟨?_, ?_, by decide, by decide⟩
  · unfold canonicalize_cli_path
    by_cases h : path.data.head? = some '/' <;> simp [h]
  · unfold hive_from_args_explicit
    by_cases h :
        (!pathExists (canonicalize_cli_path path) && path.data.contains ':') = true
    · rw [if_pos h, h]
      rfl
    · rw [if_neg h]
      simp only [Bool.not_eq_true] at h
      rw [h]
      rfl

end Colmena
